import Mathlib

/-!
Verification of the Memory Mirror recognition-cooldown-cache pipeline.

The Python source is shallowly embedded: dictionaries become association
lists over `String` keys, `datetime.now()` becomes an explicit rational
`now` argument threaded through every operation, `float` quantities
(times, distances, confidences, pixel intensities) become `ℚ`, and the
module-level availability flags (`DEEPFACE_AVAILABLE`, `PYGAME_AVAILABLE`)
become explicit booleans.  Fallible lookups return `Option`.
-/

/-- First value bound to `k` in an association list (Python `dict[k]` /
`dict.get(k)`; the embedding keeps keys unique, so "first" is "the"). -/
def assocFind {β : Type} (k : String) : List (String × β) → Option β
  | [] => none
  | (a, b) :: t => if a = k then some b else assocFind k t

/-- Remove the binding of `k` (Python `del dict[k]`, a no-op when the key
is absent, matching the `if key in ...` guards in the source). -/
def assocErase {β : Type} (k : String) : List (String × β) → List (String × β)
  | [] => []
  | (a, b) :: t => if a = k then t else (a, b) :: assocErase k t

/-- Python `dict[k] = v`: replace the existing binding in place, else
append a new binding (Python 3.7+ dicts preserve insertion order). -/
def assocSet {β : Type} (k : String) (v : β) (m : List (String × β)) : List (String × β) :=
  if k ∈ m.map Prod.fst then m.map (fun p => if p.1 = k then (k, v) else p)
  else m ++ [(k, v)]

/-- Python `list.remove(x)`: drop the first occurrence of `x`. -/
def listRemove (k : String) : List String → List String
  | [] => []
  | a :: t => if a = k then t else a :: listRemove k t

lemma listRemove_of_not_mem {k : String} {l : List String} (h : k ∉ l) :
    listRemove k l = l := by
  induction l with
  | nil => rfl
  | cons a t ih =>
    simp only [List.mem_cons, not_or] at h
    simp [listRemove, Ne.symm h.1, ih h.2]

lemma perm_cons_listRemove {k : String} {l : List String} (h : k ∈ l) :
    List.Perm l (k :: listRemove k l) := by
  induction l with
  | nil => cases h
  | cons a t ih =>
    by_cases ha : a = k
    · subst ha; simp [listRemove]
    · have ht : k ∈ t := by
        rcases List.mem_cons.mp h with h1 | h1
        · exact absurd h1.symm ha
        · exact h1
      have h2 : (a :: t).Perm (a :: (k :: listRemove k t)) := (ih ht).cons a
      have h3 : (a :: k :: listRemove k t).Perm (k :: a :: listRemove k t) :=
        List.Perm.swap k a (listRemove k t)
      have h4 : k :: a :: listRemove k t = k :: listRemove k (a :: t) := by
        simp [listRemove, ha]
      exact h4 ▸ (h2.trans h3)

lemma mem_of_mem_listRemove {x k : String} {l : List String} (h : x ∈ listRemove k l) :
    x ∈ l := by
  induction l with
  | nil => cases h
  | cons a t ih =>
    by_cases ha : a = k
    · rw [listRemove, if_pos ha] at h
      exact List.mem_cons_of_mem a h
    · rw [listRemove, if_neg ha] at h
      rcases List.mem_cons.mp h with h1 | h1
      · exact List.mem_cons.mpr (Or.inl h1)
      · exact List.mem_cons_of_mem a (ih h1)

lemma length_listRemove_le (k : String) (l : List String) :
    (listRemove k l).length ≤ l.length := by
  induction l with
  | nil => simp [listRemove]
  | cons a t ih =>
    by_cases ha : a = k
    · rw [listRemove, if_pos ha]; simp
    · rw [listRemove, if_neg ha]; simp only [List.length_cons]; omega

lemma length_listRemove_of_mem {k : String} {l : List String} (h : k ∈ l) :
    (listRemove k l).length = l.length - 1 := by
  have := (perm_cons_listRemove h).length_eq
  simp only [List.length_cons] at this
  omega

lemma nodup_listRemove {k : String} {l : List String} (h : l.Nodup) :
    (listRemove k l).Nodup := by
  by_cases hk : k ∈ l
  · have := ((perm_cons_listRemove hk).nodup_iff).mp h
    exact (List.nodup_cons.mp this).2
  · rw [listRemove_of_not_mem hk]; exact h

lemma not_mem_listRemove_self {k : String} {l : List String} (h : l.Nodup) :
    k ∉ listRemove k l := by
  by_cases hk : k ∈ l
  · have := ((perm_cons_listRemove hk).nodup_iff).mp h
    exact (List.nodup_cons.mp this).1
  · rw [listRemove_of_not_mem hk]; exact hk

lemma perm_listRemove (k : String) {l1 l2 : List String} (h : List.Perm l1 l2) :
    List.Perm (listRemove k l1) (listRemove k l2) := by
  by_cases hk : k ∈ l1
  · have hk2 : k ∈ l2 := h.mem_iff.mp hk
    have h1 := perm_cons_listRemove hk
    have h2 := perm_cons_listRemove hk2
    exact List.Perm.cons_inv (h1.symm.trans (h.trans h2))
  · have hk2 : k ∉ l2 := fun hm => hk (h.mem_iff.mpr hm)
    rw [listRemove_of_not_mem hk, listRemove_of_not_mem hk2]; exact h

lemma keys_assocErase {β : Type} (k : String) (m : List (String × β)) :
    (assocErase k m).map Prod.fst = listRemove k (m.map Prod.fst) := by
  induction m with
  | nil => rfl
  | cons p t ih =>
    obtain ⟨a, b⟩ := p
    by_cases ha : a = k
    · simp [assocErase, listRemove, ha]
    · simp [assocErase, listRemove, ha, ih]

lemma assocFind_eq_none_of_not_mem {β : Type} {k : String} {m : List (String × β)}
    (h : k ∉ m.map Prod.fst) : assocFind k m = none := by
  induction m with
  | nil => rfl
  | cons p t ih =>
    obtain ⟨a, b⟩ := p
    simp only [List.map_cons, List.mem_cons, not_or] at h
    simp [assocFind, Ne.symm h.1, ih h.2]

lemma mem_keys_of_assocFind_some {β : Type} {k : String} {m : List (String × β)} {v : β}
    (h : assocFind k m = some v) : k ∈ m.map Prod.fst := by
  induction m with
  | nil => cases h
  | cons p t ih =>
    obtain ⟨a, b⟩ := p
    by_cases ha : a = k
    · simp [ha]
    · simp only [assocFind, if_neg ha] at h
      simpa using Or.inr (ih h)

lemma keys_map_replace {β : Type} (k : String) (v : β) (m : List (String × β)) :
    (m.map (fun p => if p.1 = k then (k, v) else p)).map Prod.fst = m.map Prod.fst := by
  induction m with
  | nil => rfl
  | cons p t ih =>
    obtain ⟨a, b⟩ := p
    by_cases ha : a = k
    · subst ha; simp [ih]
    · simp [ha, ih]

lemma keys_assocSet {β : Type} (k : String) (v : β) (m : List (String × β)) :
    (assocSet k v m).map Prod.fst =
      if k ∈ m.map Prod.fst then m.map Prod.fst else m.map Prod.fst ++ [k] := by
  by_cases h : k ∈ m.map Prod.fst
  · rw [if_pos h]; simp only [assocSet, if_pos h]; exact keys_map_replace k v m
  · simp [assocSet, if_neg h]

/-! ## Recognition data model (src/src/recognition/recognizer.py) -/

/-- `RecognitionResult` dataclass.  `distance` is an `Option ℚ`: `some d`
models a finite float distance, `none` models the `float` infinity the
matching loop starts from (the dataclass default `0.0` becomes `some 0`). -/
structure RecognitionResult where
  person_id : String
  confidence : ℚ
  is_known : Bool
  timestamp : ℚ
  distance : Option ℚ := some 0
  model_name : String := ""
deriving DecidableEq

/-! ## Recognition cache (src/src/recognition/cache.py) -/

/-- `CacheEntry` dataclass. -/
structure CacheEntry where
  result : RecognitionResult
  timestamp : ℚ
  frame_hash : String
  hit_count : ℕ := 0
deriving DecidableEq

/-- `CacheEntry.is_expired`: strictly more than `ttl_seconds` since creation. -/
def CacheEntry.is_expired (e : CacheEntry) (ttl_seconds : ℚ) (now : ℚ) : Bool :=
  decide (now - e.timestamp > ttl_seconds)

/-- `RecognitionCache` state.  The dict becomes an association list with
unique keys; `datetime` fields become rationals. -/
structure RecognitionCache where
  max_size : ℕ
  ttl_seconds : ℚ
  cache : List (String × CacheEntry)
  access_order : List String
  hit_count : ℕ
  miss_count : ℕ
  total_requests : ℕ
  cleanup_interval : ℚ
  last_cleanup : ℚ
deriving DecidableEq

/-- `RecognitionCache.__init__` (constructed at time `now`). -/
def RecognitionCache.init (max_size : ℕ) (ttl_seconds : ℚ) (now : ℚ) : RecognitionCache :=
  { max_size := max_size, ttl_seconds := ttl_seconds, cache := [], access_order := [],
    hit_count := 0, miss_count := 0, total_requests := 0,
    cleanup_interval := 60, last_cleanup := now }

/-- `RecognitionCache._remove_entry`: delete from the dict and drop the
key from the access order (both guarded by membership in the source;
`assocErase` and `listRemove` are no-ops on an absent key). -/
def RecognitionCache.remove_entry (c : RecognitionCache) (key : String) : RecognitionCache :=
  { c with cache := assocErase key c.cache,
           access_order := listRemove key c.access_order }

/-- `RecognitionCache._evict_lru`: remove the entry at the front of the
access order; do nothing when the access order is empty. -/
def RecognitionCache.evict_lru (c : RecognitionCache) : RecognitionCache :=
  match c.access_order with
  | [] => c
  | lru_key :: _ => c.remove_entry lru_key

/-- `RecognitionCache._cleanup_expired`: remove every expired entry. -/
def RecognitionCache.cleanup_expired (c : RecognitionCache) (now : ℚ) : RecognitionCache :=
  let expired_keys := (c.cache.filter (fun p => p.2.is_expired c.ttl_seconds now)).map Prod.fst
  expired_keys.foldl (fun acc k => acc.remove_entry k) c

/-- `RecognitionCache._maybe_cleanup`: sweep at most once per
`cleanup_interval`. -/
def RecognitionCache.maybe_cleanup (c : RecognitionCache) (now : ℚ) : RecognitionCache :=
  if now - c.last_cleanup > c.cleanup_interval then
    { c.cleanup_expired now with last_cleanup := now }
  else c

/-- `RecognitionCache.get`: count the request; `None` on a missing key
(miss); evict and miss on an expired entry; otherwise promote the key to
most-recently-used, bump both hit counters and return the stored result. -/
def RecognitionCache.get (c : RecognitionCache) (frame_hash : String) (now : ℚ) :
    RecognitionCache × Option RecognitionResult :=
  let c1 := { c with total_requests := c.total_requests + 1 }
  match assocFind frame_hash c1.cache with
  | none => ({ c1 with miss_count := c1.miss_count + 1 }, none)
  | some entry =>
    if entry.is_expired c1.ttl_seconds now then
      let c2 := c1.remove_entry frame_hash
      ({ c2 with miss_count := c2.miss_count + 1 }, none)
    else
      let ao := (if frame_hash ∈ c1.access_order
                 then listRemove frame_hash c1.access_order
                 else c1.access_order) ++ [frame_hash]
      let entry2 := { entry with hit_count := entry.hit_count + 1 }
      ({ c1 with cache := assocSet frame_hash entry2 c1.cache,
                 access_order := ao,
                 hit_count := c1.hit_count + 1 }, some entry.result)

/-- `RecognitionCache.put`: evict the LRU entry when `len(cache) >=
max_size` (no membership test on the key), store a fresh entry with
`timestamp = now`, promote the key to most-recently-used, then run the
opportunistic cleanup sweep. -/
def RecognitionCache.put (c : RecognitionCache) (frame_hash : String)
    (result : RecognitionResult) (now : ℚ) : RecognitionCache :=
  let c1 := if c.cache.length ≥ c.max_size then c.evict_lru else c
  let entry : CacheEntry :=
    { result := result, timestamp := now, frame_hash := frame_hash, hit_count := 0 }
  let c2 := { c1 with cache := assocSet frame_hash entry c1.cache }
  let ao := (if frame_hash ∈ c2.access_order
             then listRemove frame_hash c2.access_order
             else c2.access_order) ++ [frame_hash]
  let c3 := { c2 with access_order := ao }
  c3.maybe_cleanup now

/-- The LRU structural invariant of the spec: the size bound, no
duplicates in the access order, and the access order holding exactly the
keys of the map (as a permutation, hence "exactly once and vice versa"). -/
def RecognitionCache.Wf (c : RecognitionCache) : Prop :=
  c.cache.length ≤ c.max_size ∧ c.access_order.Nodup ∧
  List.Perm c.access_order (c.cache.map Prod.fst)

instance (c : RecognitionCache) : Decidable c.Wf := by
  unfold RecognitionCache.Wf; infer_instance

lemma keys_remove_entry (c : RecognitionCache) (k : String) :
    (c.remove_entry k).cache.map Prod.fst = listRemove k (c.cache.map Prod.fst) :=
  keys_assocErase k c.cache

lemma wf_remove_entry {c : RecognitionCache} (h : c.Wf) (k : String) :
    (c.remove_entry k).Wf := by
  obtain ⟨hlen, hnd, hperm⟩ := h
  refine ⟨?_, nodup_listRemove hnd, ?_⟩
  · have h1 : (c.remove_entry k).cache.length = (listRemove k (c.cache.map Prod.fst)).length := by
      rw [← keys_remove_entry c k, List.length_map]
    rw [h1]
    calc (listRemove k (c.cache.map Prod.fst)).length
        ≤ (c.cache.map Prod.fst).length := length_listRemove_le k _
      _ = c.cache.length := List.length_map _ _
      _ ≤ c.max_size := hlen
  · rw [keys_remove_entry c k]
    exact perm_listRemove k hperm

lemma max_size_remove_entry (c : RecognitionCache) (k : String) :
    (c.remove_entry k).max_size = c.max_size := rfl

lemma wf_evict_lru {c : RecognitionCache} (h : c.Wf) : c.evict_lru.Wf := by
  unfold RecognitionCache.evict_lru
  cases hao : c.access_order with
  | nil => exact h
  | cons lru rest => exact wf_remove_entry h lru

lemma length_evict_lru_of_full {c : RecognitionCache} (h : c.Wf) (hne : c.cache ≠ []) :
    c.evict_lru.cache.length = c.cache.length - 1 := by
  obtain ⟨hlen, hnd, hperm⟩ := h
  have hkeys : c.cache.map Prod.fst ≠ [] := by
    intro habs
    exact hne (List.map_eq_nil_iff.mp habs)
  have hao : c.access_order ≠ [] := by
    intro habs
    rw [habs] at hperm
    exact hkeys (List.Perm.nil_eq hperm).symm
  cases hao2 : c.access_order with
  | nil => exact absurd hao2 hao
  | cons lru rest =>
    have hmem : lru ∈ c.access_order := by rw [hao2]; exact List.mem_cons_self lru rest
    have hmemk : lru ∈ c.cache.map Prod.fst := hperm.mem_iff.mp hmem
    have h1 : c.evict_lru = c.remove_entry lru := by
      unfold RecognitionCache.evict_lru; rw [hao2]
    rw [h1]
    have h2 : (c.remove_entry lru).cache.length
        = (listRemove lru (c.cache.map Prod.fst)).length := by
      rw [← keys_remove_entry c lru, List.length_map]
    rw [h2, length_listRemove_of_mem hmemk, List.length_map]

lemma wf_foldl_remove (ks : List String) :
    ∀ (c : RecognitionCache), c.Wf → (ks.foldl (fun acc k => acc.remove_entry k) c).Wf := by
  induction ks with
  | nil => intro c h; exact h
  | cons k t ih => intro c h; exact ih _ (wf_remove_entry h k)

lemma wf_cleanup_expired {c : RecognitionCache} (h : c.Wf) (now : ℚ) :
    (c.cleanup_expired now).Wf :=
  wf_foldl_remove _ c h

lemma wf_of_fields {c d : RecognitionCache} (h : c.Wf)
    (hc : d.cache = c.cache) (ha : d.access_order = c.access_order)
    (hm : d.max_size = c.max_size) : d.Wf := by
  obtain ⟨h1, h2, h3⟩ := h
  exact ⟨by rw [hc, hm]; exact h1, by rw [ha]; exact h2, by rw [ha, hc]; exact h3⟩

lemma foldl_remove_fields (ks : List String) :
    ∀ (c : RecognitionCache),
      (ks.foldl (fun acc k => acc.remove_entry k) c).max_size = c.max_size ∧
      (ks.foldl (fun acc k => acc.remove_entry k) c).ttl_seconds = c.ttl_seconds := by
  induction ks with
  | nil => intro c; exact ⟨rfl, rfl⟩
  | cons k t ih => intro c; exact ih (c.remove_entry k)

lemma wf_maybe_cleanup {c : RecognitionCache} (h : c.Wf) (now : ℚ) :
    (c.maybe_cleanup now).Wf := by
  unfold RecognitionCache.maybe_cleanup
  by_cases hcl : now - c.last_cleanup > c.cleanup_interval
  · rw [if_pos hcl]
    have h1 := wf_cleanup_expired h now
    exact wf_of_fields h1 rfl rfl ((foldl_remove_fields _ c).1.symm ▸ rfl)
  · rw [if_neg hcl]; exact h

lemma max_size_evict_lru (c : RecognitionCache) : c.evict_lru.max_size = c.max_size := by
  unfold RecognitionCache.evict_lru
  cases c.access_order <;> rfl

lemma length_eq_keys_length {β : Type} (m : List (String × β)) :
    m.length = (m.map Prod.fst).length := (List.length_map _ _).symm

lemma wf_set_promote {c1 : RecognitionCache} {k : String} {e : CacheEntry}
    (h : c1.Wf) (hroom : k ∈ c1.cache.map Prod.fst ∨ c1.cache.length + 1 ≤ c1.max_size) :
    RecognitionCache.Wf
      { c1 with cache := assocSet k e c1.cache,
                access_order := (if k ∈ c1.access_order then listRemove k c1.access_order
                                 else c1.access_order) ++ [k] } := by
  obtain ⟨hlen, hnd, hperm⟩ := h
  by_cases hk : k ∈ c1.cache.map Prod.fst
  · have hkao : k ∈ c1.access_order := hperm.mem_iff.mpr hk
    have hkeys : (assocSet k e c1.cache).map Prod.fst = c1.cache.map Prod.fst := by
      rw [keys_assocSet, if_pos hk]
    have hpermc : List.Perm (k :: listRemove k c1.access_order) (c1.cache.map Prod.fst) :=
      (perm_cons_listRemove hkao).symm.trans hperm
    refine ⟨?_, ?_, ?_⟩
    · show (assocSet k e c1.cache).length ≤ c1.max_size
      rw [length_eq_keys_length, hkeys, ← length_eq_keys_length]
      exact hlen
    · show ((if k ∈ c1.access_order then listRemove k c1.access_order
             else c1.access_order) ++ [k]).Nodup
      rw [if_pos hkao]
      refine ((List.perm_append_singleton k _).nodup_iff).mpr ?_
      exact List.nodup_cons.mpr ⟨not_mem_listRemove_self hnd, nodup_listRemove hnd⟩
    · show List.Perm ((if k ∈ c1.access_order then listRemove k c1.access_order
             else c1.access_order) ++ [k]) ((assocSet k e c1.cache).map Prod.fst)
      rw [if_pos hkao, hkeys]
      exact (List.perm_append_singleton k _).trans hpermc
  · have hkao : k ∉ c1.access_order := fun hm => hk (hperm.mem_iff.mp hm)
    have hkeys : (assocSet k e c1.cache).map Prod.fst = c1.cache.map Prod.fst ++ [k] := by
      rw [keys_assocSet, if_neg hk]
    have hroom2 : c1.cache.length + 1 ≤ c1.max_size := by
      rcases hroom with h1 | h1
      · exact absurd h1 hk
      · exact h1
    refine ⟨?_, ?_, ?_⟩
    · show (assocSet k e c1.cache).length ≤ c1.max_size
      rw [length_eq_keys_length, hkeys, List.length_append, ← length_eq_keys_length]
      simpa using hroom2
    · show ((if k ∈ c1.access_order then listRemove k c1.access_order
             else c1.access_order) ++ [k]).Nodup
      rw [if_neg hkao]
      refine ((List.perm_append_singleton k _).nodup_iff).mpr ?_
      exact List.nodup_cons.mpr ⟨hkao, hnd⟩
    · show List.Perm ((if k ∈ c1.access_order then listRemove k c1.access_order
             else c1.access_order) ++ [k]) ((assocSet k e c1.cache).map Prod.fst)
      rw [if_neg hkao, hkeys]
      exact List.Perm.append_right [k] hperm

lemma wf_put {c : RecognitionCache} (h : c.Wf) (hmax : 0 < c.max_size)
    (k : String) (r : RecognitionResult) (now : ℚ) : (c.put k r now).Wf := by
  have hc1 : (if c.cache.length ≥ c.max_size then c.evict_lru else c).Wf ∧
      (if c.cache.length ≥ c.max_size then c.evict_lru else c).cache.length + 1
        ≤ (if c.cache.length ≥ c.max_size then c.evict_lru else c).max_size := by
    by_cases hge : c.cache.length ≥ c.max_size
    · rw [if_pos hge]
      have hlenc : c.cache.length = c.max_size := le_antisymm h.1 hge
      have hne : c.cache ≠ [] := by
        intro habs
        rw [habs] at hlenc
        simp at hlenc
        omega
      refine ⟨wf_evict_lru h, ?_⟩
      rw [length_evict_lru_of_full h hne, max_size_evict_lru, hlenc]
      omega
    · rw [if_neg hge]
      push_neg at hge
      exact ⟨h, by omega⟩
  unfold RecognitionCache.put
  exact wf_maybe_cleanup (wf_set_promote hc1.1 (Or.inr hc1.2)) now

lemma wf_get {c : RecognitionCache} (h : c.Wf) (k : String) (now : ℚ) :
    ((c.get k now).1).Wf := by
  unfold RecognitionCache.get
  cases hfind : assocFind k c.cache with
  | none =>
    simp only [hfind]
    exact wf_of_fields h rfl rfl rfl
  | some entry =>
    simp only [hfind]
    by_cases hexp : entry.is_expired c.ttl_seconds now = true
    · simp only [hexp, if_pos]
      exact wf_of_fields (wf_remove_entry h k) rfl rfl rfl
    · rw [if_neg hexp]
      have hmem : k ∈ c.cache.map Prod.fst := mem_keys_of_assocFind_some hfind
      have h2 := @wf_set_promote c k
        { entry with hit_count := entry.hit_count + 1 } h (Or.inl hmem)
      exact wf_of_fields h2 rfl rfl rfl


lemma mem_listRemove_iff_of_ne {x k : String} (hne : x ≠ k) (l : List String) :
    x ∈ listRemove k l ↔ x ∈ l := by
  induction l with
  | nil => simp [listRemove]
  | cons a t ih =>
    by_cases ha : a = k
    · rw [listRemove, if_pos ha]
      constructor
      · exact fun hx => List.mem_cons_of_mem a hx
      · intro hx
        rcases List.mem_cons.mp hx with h1 | h1
        · exact absurd (ha ▸ h1) hne
        · exact h1
    · rw [listRemove, if_neg ha]
      simp [ih]

lemma evict_lru_eq (c : RecognitionCache) {lru : String} {rest : List String}
    (hao : c.access_order = lru :: rest) : c.evict_lru = c.remove_entry lru := by
  unfold RecognitionCache.evict_lru
  rw [hao]

lemma evict_lru_eq_self (c : RecognitionCache) (hao : c.access_order = []) :
    c.evict_lru = c := by
  unfold RecognitionCache.evict_lru
  rw [hao]

lemma maybe_cleanup_of_not {c : RecognitionCache} {now : ℚ}
    (h : ¬ now - c.last_cleanup > c.cleanup_interval) : c.maybe_cleanup now = c := by
  unfold RecognitionCache.maybe_cleanup
  rw [if_neg h]

lemma put_eq_of_room (c : RecognitionCache) (k : String) (r : RecognitionResult) (now : ℚ)
    (hroom : c.cache.length < c.max_size)
    (hcl : ¬ now - c.last_cleanup > c.cleanup_interval) :
    c.put k r now =
      { c with cache := assocSet k ⟨r, now, k, 0⟩ c.cache,
               access_order := (if k ∈ c.access_order then listRemove k c.access_order
                                else c.access_order) ++ [k] } := by
  unfold RecognitionCache.put
  rw [if_neg (by omega : ¬ c.cache.length ≥ c.max_size)]
  exact maybe_cleanup_of_not hcl

lemma put_eq_full_evict (c : RecognitionCache) (k : String) (r : RecognitionResult) (now : ℚ)
    {lru : String} {rest : List String} (hao : c.access_order = lru :: rest)
    (hfull : c.cache.length ≥ c.max_size)
    (hcl : ¬ now - c.last_cleanup > c.cleanup_interval) :
    c.put k r now =
      { c with
        cache := assocSet k ⟨r, now, k, 0⟩ (assocErase lru c.cache),
        access_order :=
          (if k ∈ listRemove lru c.access_order
           then listRemove k (listRemove lru c.access_order)
           else listRemove lru c.access_order) ++ [k] } := by
  unfold RecognitionCache.put
  rw [if_pos hfull, evict_lru_eq c hao]
  exact maybe_cleanup_of_not hcl

lemma put_eq_full_empty_order (c : RecognitionCache) (k : String) (r : RecognitionResult)
    (now : ℚ) (hao : c.access_order = [])
    (hfull : c.cache.length ≥ c.max_size)
    (hcl : ¬ now - c.last_cleanup > c.cleanup_interval) :
    c.put k r now =
      { c with cache := assocSet k ⟨r, now, k, 0⟩ c.cache,
               access_order := (if k ∈ c.access_order then listRemove k c.access_order
                                else c.access_order) ++ [k] } := by
  unfold RecognitionCache.put
  rw [if_pos hfull, evict_lru_eq_self c hao]
  exact maybe_cleanup_of_not hcl

lemma get_eq_miss (c : RecognitionCache) (k : String) (now : ℚ)
    (hfind : assocFind k c.cache = none) :
    c.get k now =
      ({ c with miss_count := c.miss_count + 1,
                total_requests := c.total_requests + 1 }, none) := by
  unfold RecognitionCache.get
  simp only [hfind]

lemma get_eq_expired (c : RecognitionCache) (k : String) (now : ℚ) (entry : CacheEntry)
    (hfind : assocFind k c.cache = some entry)
    (hexp : entry.is_expired c.ttl_seconds now = true) :
    c.get k now =
      ({ c with cache := assocErase k c.cache,
                access_order := listRemove k c.access_order,
                miss_count := c.miss_count + 1,
                total_requests := c.total_requests + 1 }, none) := by
  unfold RecognitionCache.get
  simp only [hfind]
  rw [if_pos hexp]
  rfl

lemma get_eq_hit (c : RecognitionCache) (k : String) (now : ℚ) (entry : CacheEntry)
    (hfind : assocFind k c.cache = some entry)
    (hexp : entry.is_expired c.ttl_seconds now = false) :
    c.get k now =
      ({ c with
         cache := assocSet k ⟨entry.result, entry.timestamp, entry.frame_hash,
                              entry.hit_count + 1⟩ c.cache,
         access_order := (if k ∈ c.access_order then listRemove k c.access_order
                          else c.access_order) ++ [k],
         hit_count := c.hit_count + 1,
         total_requests := c.total_requests + 1 }, some entry.result) := by
  unfold RecognitionCache.get
  simp only [hfind]
  rw [if_neg (by simp [hexp])]

/-- A sample stored result used by the concrete cache scenarios. -/
def demoResult : RecognitionResult := ⟨"alice", 1, true, 0, some 0, ""⟩

def entryA : CacheEntry := ⟨demoResult, 1, "a", 0⟩

def entryA1 : CacheEntry := ⟨demoResult, 1, "a", 1⟩

def entryB : CacheEntry := ⟨demoResult, 2, "b", 0⟩

def entryC : CacheEntry := ⟨demoResult, 4, "c", 0⟩

lemma demo_s1 :
    (RecognitionCache.init 2 1000 0).put "a" demoResult 1 =
      ⟨2, 1000, [("a", entryA)], ["a"], 0, 0, 0, 60, 0⟩ := by
  rw [put_eq_of_room _ _ _ _ (by decide) (by norm_num [RecognitionCache.init])]
  simp [RecognitionCache.init, assocSet, listRemove, entryA]

lemma demo_s2 :
    (⟨2, 1000, [("a", entryA)], ["a"], 0, 0, 0, 60, 0⟩ : RecognitionCache).put "b" demoResult 2 =
      ⟨2, 1000, [("a", entryA), ("b", entryB)], ["a", "b"], 0, 0, 0, 60, 0⟩ := by
  rw [put_eq_of_room _ _ _ _ (by decide) (by norm_num)]
  simp [assocSet, listRemove, entryB]

lemma demo_get :
    (⟨2, 1000, [("a", entryA), ("b", entryB)], ["a", "b"], 0, 0, 0, 60,
      0⟩ : RecognitionCache).get "a" 3 =
      (⟨2, 1000, [("a", entryA1), ("b", entryB)], ["b", "a"], 1, 0, 1, 60, 0⟩,
       some demoResult) := by
  rw [get_eq_hit _ _ _ entryA (by simp [assocFind])
    (by simp only [CacheEntry.is_expired, entryA, decide_eq_false_iff_not]; norm_num)]
  simp [assocSet, listRemove, entryA, entryA1, demoResult]

lemma demo_s4 :
    (⟨2, 1000, [("a", entryA1), ("b", entryB)], ["b", "a"], 1, 0, 1, 60,
      0⟩ : RecognitionCache).put "c" demoResult 4 =
      ⟨2, 1000, [("a", entryA1), ("c", entryC)], ["a", "c"], 1, 0, 1, 60, 0⟩ := by
  rw [put_eq_full_evict _ _ _ _ (rfl : ["b", "a"] = "b" :: ["a"]) (by decide) (by norm_num)]
  simp [assocErase, assocSet, listRemove, entryC]

/-- C1 (amended: the stated LRU invariants all hold for caches with a
positive capacity; the degenerate configuration `max_size = 0` is the one
exception, exhibited by `cache_size_bound_counterexample`): membership in
the map and in the access order coincide, with no duplicates on either
side; the size stays at most `max_size` across `put` (for `0 < max_size`)
and `get`; eviction removes exactly the entry at the front of the access
order; a hit moves that key to the back of the access order; and in a
capacity-2 scenario the entry evicted by the `max_size + 1`-st distinct
`put` is the least-recently-used by access order (the untouched "b"), not
by insertion order. -/
theorem cache_lru_invariants :
    (∀ c : RecognitionCache, c.Wf →
        c.access_order.Nodup ∧ (c.cache.map Prod.fst).Nodup ∧
        (∀ k, k ∈ c.access_order ↔ k ∈ c.cache.map Prod.fst) ∧
        c.cache.length ≤ c.max_size) ∧
    (∀ (c : RecognitionCache) (k : String) (r : RecognitionResult) (now : ℚ),
        c.Wf → 0 < c.max_size → (c.put k r now).Wf) ∧
    (∀ (c : RecognitionCache) (k : String) (now : ℚ), c.Wf → ((c.get k now).1).Wf) ∧
    (∀ (c : RecognitionCache) (lru : String) (rest : List String),
        c.access_order = lru :: rest → c.evict_lru = c.remove_entry lru) ∧
    (∀ (c : RecognitionCache) (k : String) (now : ℚ), c.Wf → (c.get k now).2.isSome →
        ((c.get k now).1).access_order = listRemove k c.access_order ++ [k]) ∧
    (assocFind "b" (((((RecognitionCache.init 2 1000 0).put "a" demoResult 1).put
          "b" demoResult 2).get "a" 3).1.put "c" demoResult 4).cache = none ∧
     (assocFind "a" (((((RecognitionCache.init 2 1000 0).put "a" demoResult 1).put
          "b" demoResult 2).get "a" 3).1.put "c" demoResult 4).cache).isSome = true ∧
     (assocFind "c" (((((RecognitionCache.init 2 1000 0).put "a" demoResult 1).put
          "b" demoResult 2).get "a" 3).1.put "c" demoResult 4).cache).isSome = true ∧
     (((((RecognitionCache.init 2 1000 0).put "a" demoResult 1).put
          "b" demoResult 2).get "a" 3).1.put "c" demoResult 4).access_order = ["a", "c"] ∧
     ((((RecognitionCache.init 2 1000 0).put "a" demoResult 1).put
          "b" demoResult 2).get "a" 3).2.isSome = true) := by
  refine ⟨?_, ?_, ?_, ?_, ?_, ?_⟩
  · intro c h
    obtain ⟨hlen, hnd, hperm⟩ := h
    exact ⟨hnd, hperm.nodup_iff.mp hnd, fun k => hperm.mem_iff, hlen⟩
  · intro c k r now h hmax
    exact wf_put h hmax k r now
  · intro c k now h
    exact wf_get h k now
  · intro c lru rest hao
    exact evict_lru_eq c hao
  · intro c k now h hsome
    obtain ⟨hlen, hnd, hperm⟩ := h
    cases hfind : assocFind k c.cache with
    | none =>
      rw [get_eq_miss c k now hfind] at hsome
      simp at hsome
    | some entry =>
      by_cases hexp : entry.is_expired c.ttl_seconds now = true
      · rw [get_eq_expired c k now entry hfind hexp] at hsome
        simp at hsome
      · have hexp2 : entry.is_expired c.ttl_seconds now = false := by
          cases hb : entry.is_expired c.ttl_seconds now
          · rfl
          · exact absurd hb hexp
        rw [get_eq_hit c k now entry hfind hexp2]
        have hmem : k ∈ c.access_order :=
          hperm.mem_iff.mpr (mem_keys_of_assocFind_some hfind)
        simp [if_pos hmem]
  · rw [demo_s1, demo_s2, demo_get]
    rw [demo_s4]
    refine ⟨by simp [assocFind], by simp [assocFind], by simp [assocFind], rfl, rfl⟩

/-- C1 counterexample: the claim's size bound quantifies over every cache,
but in the degenerate configuration `max_size = 0` a `put` into the
well-formed empty cache still stores the entry — `_evict_lru` is a no-op
on an empty access order — so `len(cache) ≤ max_size` is violated. -/
theorem cache_size_bound_counterexample :
    (RecognitionCache.init 0 30 0).Wf ∧
    ¬ (((RecognitionCache.init 0 30 0).put "a" demoResult 0).cache.length
        ≤ ((RecognitionCache.init 0 30 0).put "a" demoResult 0).max_size) := by
  constructor
  · decide
  · rw [put_eq_full_empty_order _ _ _ _ rfl (by decide)
      (by norm_num [RecognitionCache.init])]
    simp [RecognitionCache.init, assocSet]

theorem cache_lru_invariants_witness :
    ((RecognitionCache.init 2 1000 0).put "a" demoResult 1).Wf :=
  cache_lru_invariants.2.1 (RecognitionCache.init 2 1000 0) "a" demoResult 1
    (by decide) (by decide)

/-- C2: an entry is not expired at age exactly `ttl` (strict `>`); a `get`
at `timestamp + ttl - ε` is a hit returning the stored result, and a `get`
at `timestamp + ttl + ε` is a miss that removes the entry from the cache
and the access order and increments the miss counter. -/
theorem cache_ttl_boundary :
    (∀ (e : CacheEntry) (ttl : ℚ), e.is_expired ttl (e.timestamp + ttl) = false) ∧
    (∀ (c : RecognitionCache) (k : String) (e : CacheEntry) (ε : ℚ),
      c.Wf → 0 < ε → assocFind k c.cache = some e →
      ((c.get k (e.timestamp + c.ttl_seconds - ε)).2 = some e.result ∧
       (c.get k (e.timestamp + c.ttl_seconds + ε)).2 = none ∧
       assocFind k ((c.get k (e.timestamp + c.ttl_seconds + ε)).1).cache = none ∧
       k ∉ ((c.get k (e.timestamp + c.ttl_seconds + ε)).1).access_order ∧
       ((c.get k (e.timestamp + c.ttl_seconds + ε)).1).miss_count = c.miss_count + 1)) := by
  constructor
  · intro e ttl
    simp only [CacheEntry.is_expired, decide_eq_false_iff_not]
    intro habs
    linarith
  · intro c k e ε h hε hfind
    obtain ⟨hlen, hnd, hperm⟩ := h
    have hkeysnd : (c.cache.map Prod.fst).Nodup := hperm.nodup_iff.mp hnd
    have hexpf : e.is_expired c.ttl_seconds (e.timestamp + c.ttl_seconds - ε) = false := by
      simp only [CacheEntry.is_expired, decide_eq_false_iff_not]
      intro habs
      linarith
    have hexpt : e.is_expired c.ttl_seconds (e.timestamp + c.ttl_seconds + ε) = true := by
      simp only [CacheEntry.is_expired, decide_eq_true_eq]
      linarith
    refine ⟨?_, ?_, ?_, ?_, ?_⟩
    · rw [get_eq_hit c k _ e hfind hexpf]
    · rw [get_eq_expired c k _ e hfind hexpt]
    · rw [get_eq_expired c k _ e hfind hexpt]
      apply assocFind_eq_none_of_not_mem
      rw [keys_assocErase]
      exact not_mem_listRemove_self hkeysnd
    · rw [get_eq_expired c k _ e hfind hexpt]
      exact not_mem_listRemove_self hnd
    · rw [get_eq_expired c k _ e hfind hexpt]

/-- A one-entry cache used to witness the TTL boundary behaviour. -/
def ttlCache : RecognitionCache :=
  ⟨1, 30, [("x", ⟨demoResult, 0, "x", 0⟩)], ["x"], 0, 0, 0, 60, 0⟩

theorem cache_ttl_boundary_witness :
    (ttlCache.get "x" (0 + 30 - 1)).2 = some demoResult ∧
    (ttlCache.get "x" (0 + 30 + 1)).2 = none ∧
    assocFind "x" ((ttlCache.get "x" (0 + 30 + 1)).1).cache = none ∧
    "x" ∉ ((ttlCache.get "x" (0 + 30 + 1)).1).access_order ∧
    ((ttlCache.get "x" (0 + 30 + 1)).1).miss_count = 0 + 1 :=
  cache_ttl_boundary.2 ttlCache "x" ⟨demoResult, 0, "x", 0⟩ 1 (by decide) (by norm_num)
    (by simp [ttlCache, assocFind])

/-- A full capacity-2 cache holding "a" and "b", used by the C10 scenario. -/
def capCache : RecognitionCache :=
  ⟨2, 100, [("a", entryA), ("b", entryB)], ["a", "b"], 0, 0, 0, 60, 0⟩

/-- C10: `put` compares size to `max_size` without testing key membership,
so re-storing a fingerprint that is already present while the cache is
exactly full still evicts the entry at the front of the access order; when
that front entry is a different key, an unrelated entry is removed and the
cache shrinks by one. Concretely, re-putting "b" into the full `capCache`
deletes "a" and leaves a single entry. -/
theorem put_existing_at_capacity :
    (∀ (c : RecognitionCache) (k : String) (r : RecognitionResult) (now : ℚ)
        (lru : String) (rest : List String),
      c.Wf → c.cache.length = c.max_size → c.access_order = lru :: rest →
      k ∈ c.cache.map Prod.fst → k ≠ lru →
      ¬ now - c.last_cleanup > c.cleanup_interval →
      lru ∉ (c.put k r now).cache.map Prod.fst ∧
      k ∈ (c.put k r now).cache.map Prod.fst ∧
      (c.put k r now).cache.length = c.max_size - 1) ∧
    (assocFind "a" (capCache.put "b" demoResult 3).cache = none ∧
     (capCache.put "b" demoResult 3).cache.length = 1) := by
  constructor
  · intro c k r now lru rest h hfull hao hk hkne hnc
    obtain ⟨hlen, hnd, hperm⟩ := h
    have hkeysnd : (c.cache.map Prod.fst).Nodup := hperm.nodup_iff.mp hnd
    have hge : c.cache.length ≥ c.max_size := by rw [hfull]
    rw [put_eq_full_evict c k r now hao hge hnc]
    dsimp only
    have hkeyserase : (assocErase lru c.cache).map Prod.fst
        = listRemove lru (c.cache.map Prod.fst) := keys_assocErase _ _
    have hkmem : k ∈ (assocErase lru c.cache).map Prod.fst := by
      rw [hkeyserase]
      exact (mem_listRemove_iff_of_ne hkne _).mpr hk
    have hkeysset :
        (assocSet k ⟨r, now, k, 0⟩ (assocErase lru c.cache)).map Prod.fst
          = (assocErase lru c.cache).map Prod.fst := by
      rw [keys_assocSet, if_pos hkmem]
    have hlrumem : lru ∈ c.cache.map Prod.fst := by
      apply hperm.mem_iff.mp
      rw [hao]
      exact List.mem_cons_self lru rest
    refine ⟨?_, ?_, ?_⟩
    · rw [hkeysset, hkeyserase]
      exact not_mem_listRemove_self hkeysnd
    · rw [hkeysset]
      exact hkmem
    · rw [length_eq_keys_length, hkeysset, hkeyserase,
        length_listRemove_of_mem hlrumem, List.length_map, hfull]
  · rw [put_eq_full_evict capCache "b" demoResult 3
      (rfl : capCache.access_order = "a" :: ["b"]) (by decide) (by norm_num [capCache])]
    constructor
    · simp [capCache, assocErase, assocSet, listRemove, assocFind]
    · simp [capCache, assocErase, assocSet, listRemove]

theorem put_existing_at_capacity_witness :
    "a" ∉ (capCache.put "b" demoResult 3).cache.map Prod.fst ∧
    "b" ∈ (capCache.put "b" demoResult 3).cache.map Prod.fst ∧
    (capCache.put "b" demoResult 3).cache.length = capCache.max_size - 1 :=
  put_existing_at_capacity.1 capCache "b" demoResult 3 "a" ["b"] (by decide) (by decide)
    rfl (by decide) (by decide) (by norm_num [capCache])

/-! ## Cooldown gates (src/app.py and src/src/audio/manager.py) -/

/-- `MemoryMirrorApp` cooldown state: `last_recognition_time` dict and the
`recognition_cooldown` constant (30 in the source). -/
structure AppState where
  last_recognition_time : List (String × ℚ)
  recognition_cooldown : ℚ
deriving DecidableEq

/-- `MemoryMirrorApp.should_play_message`: `self.last_recognition_time.get(person_id, 0)`
defaults a missing entry to timestamp `0`, then compares strictly. -/
def should_play_message (st : AppState) (person_id : String) (current_time : ℚ) : Bool :=
  decide (current_time - ((assocFind person_id st.last_recognition_time).getD 0)
    > st.recognition_cooldown)

/-- `AudioManager._is_in_cooldown`: a person with no entry is not in
cooldown; otherwise in cooldown iff strictly less than `message_cooldown`
seconds have elapsed. -/
def is_in_cooldown (last_played : List (String × ℚ)) (message_cooldown : ℚ)
    (person_id : String) (now : ℚ) : Bool :=
  match assocFind person_id last_played with
  | none => false
  | some t => decide (now - t < message_cooldown)

/-- C3 counterexample: the claimed "permitted iff no entry or
`now − last > cooldown` (strict)" fails on both gates.  The audio manager
permits at elapsed time exactly equal to the cooldown (its test is
`elapsed < cooldown`, so the boundary is non-strict for permission), and
the app-level gate denies a never-announced person whenever
`now ≤ cooldown`, because a missing entry defaults to timestamp 0. -/
theorem cooldown_strictness_counterexample :
    (is_in_cooldown [("alice", 0)] 30 "alice" 30 = false ∧ ¬ ((30 : ℚ) - 0 > 30)) ∧
    (should_play_message ⟨[], 30⟩ "bob" 10 = false) := by
  refine ⟨⟨?_, by norm_num⟩, ?_⟩
  · norm_num [is_in_cooldown, assocFind]
  · norm_num [should_play_message, assocFind]

/-- C3 (amended): `should_play_message` permits iff
`now − last > cooldown` where a missing entry is read as `last = 0`;
`_is_in_cooldown` reports out-of-cooldown iff the person has no entry or
`now − last ≥ cooldown` (non-strict at the boundary); with a 30-second
cooldown and an announcement recorded at t = 0, both gates deny at
t = 29.9 and permit at t = 30.1. -/
theorem cooldown_gates :
    (∀ (st : AppState) (p : String) (now : ℚ),
        should_play_message st p now = true ↔
          now - ((assocFind p st.last_recognition_time).getD 0) > st.recognition_cooldown) ∧
    (∀ (lp : List (String × ℚ)) (cd : ℚ) (p : String) (now : ℚ),
        is_in_cooldown lp cd p now = false ↔
          ∀ t, assocFind p lp = some t → cd ≤ now - t) ∧
    (should_play_message ⟨[("alice", 0)], 30⟩ "alice" (299/10) = false) ∧
    (should_play_message ⟨[("alice", 0)], 30⟩ "alice" (301/10) = true) ∧
    (is_in_cooldown [("alice", 0)] 30 "alice" (299/10) = true) ∧
    (is_in_cooldown [("alice", 0)] 30 "alice" (301/10) = false) := by
  refine ⟨?_, ?_, ?_, ?_, ?_, ?_⟩
  · intro st p now
    simp [should_play_message]
  · intro lp cd p now
    cases hfind : assocFind p lp with
    | none => simp [is_in_cooldown, hfind]
    | some t0 => simp [is_in_cooldown, hfind, not_lt]
  · norm_num [should_play_message, assocFind]
  · norm_num [should_play_message, assocFind]
  · norm_num [is_in_cooldown, assocFind]
  · norm_num [is_in_cooldown, assocFind]

theorem cooldown_gates_witness :
    should_play_message ⟨[("alice", 0)], 30⟩ "alice" 31 = true :=
  (cooldown_gates.1 ⟨[("alice", 0)], 30⟩ "alice" 31).mpr (by norm_num [assocFind])

/-- `AudioManager` state: the module flag `PYGAME_AVAILABLE`, the
`audio_enabled` setting, the per-person cooldown map and the playback
flags mutated by `_play_audio_file` / `stop_current_audio`. -/
structure AudioState where
  pygame_available : Bool
  audio_enabled : Bool
  message_cooldown : ℚ
  last_played : List (String × ℚ)
  is_playing : Bool
  current_audio_file : Option String
deriving DecidableEq

/-- `AudioManager.stop_current_audio`: stop only when pygame is available
and something is playing. -/
def stop_current_audio (s : AudioState) : AudioState :=
  if s.pygame_available && s.is_playing then
    { s with is_playing := false, current_audio_file := none }
  else s

/-- Python `not message or not message.strip()`: the message is skipped
iff every character is whitespace (the empty string included). -/
def message_is_blank (message : String) : Bool :=
  message.data.all (fun c => c.isWhitespace)

/-- `AudioManager.play_voice_message` composed with the start of the
playback thread `_play_audio_file`.  `tts_output` is the collaborator
result of `tts_engine.generate_speech` (`none` models a TTS failure —
note the source has already stopped the current audio by then).  On
success the playback thread marks the busy flag and records
`last_played[person_id] = now`; the completion of playback is the
separate `finish_playback` transition. -/
def play_voice_message (s : AudioState) (message : String) (person_id : Option String)
    (tts_output : Option String) (now : ℚ) : AudioState × Bool :=
  if !s.audio_enabled then (s, false)
  else if !s.pygame_available then (s, false)
  else if message_is_blank message then (s, false)
  else if (match person_id with
           | some p => is_in_cooldown s.last_played s.message_cooldown p now
           | none => false) then (s, false)
  else
    let s1 := stop_current_audio s
    match tts_output with
    | none => (s1, false)
    | some audio_file =>
      ({ s1 with is_playing := true, current_audio_file := some audio_file,
                 last_played := match person_id with
                   | some p => assocSet p now s1.last_played
                   | none => s1.last_played }, true)

/-- End of `_play_audio_file`: playback completes. -/
def finish_playback (s : AudioState) : AudioState :=
  { s with is_playing := false, current_audio_file := none }

/-- The events that mutate the announcement state. -/
inductive AudioEvent where
  | play (message : String) (person_id : Option String) (tts_output : Option String) (now : ℚ)
  | finish
  | stop
deriving DecidableEq

def audio_step (s : AudioState) : AudioEvent → AudioState
  | AudioEvent.play msg pid tts now => (play_voice_message s msg pid tts now).1
  | AudioEvent.finish => finish_playback s
  | AudioEvent.stop => stop_current_audio s

def audio_run (s : AudioState) (evs : List AudioEvent) : AudioState :=
  evs.foldl audio_step s

/-- The cooldown gate's verdict read off an `AudioState`: a person is
eligible iff `_is_in_cooldown` is false.  Nothing in the source consults
the busy flag here. -/
def AudioState.eligible (s : AudioState) (p : String) (now : ℚ) : Bool :=
  !(is_in_cooldown s.last_played s.message_cooldown p now)

/-- The freshly constructed `AudioManager` (pygame available, audio
enabled, 30-second cooldown, nothing played). -/
def audioInit : AudioState := ⟨true, true, 30, [], false, none⟩

/-- C4 counterexample: from the initial state, one successful announcement
for "alice" reaches a state whose busy flag is set while "bob" (and, at
t = 31, even "alice" herself) is still reported eligible by the cooldown
gate — eligibility does not imply the audio-busy flag is false. -/
theorem audio_busy_eligibility_counterexample :
    (audio_run audioInit [AudioEvent.play "hello" (some "alice") (some "f.mp3") 0]).is_playing
        = true ∧
    (audio_run audioInit
        [AudioEvent.play "hello" (some "alice") (some "f.mp3") 0]).eligible "bob" 0 = true ∧
    (audio_run audioInit
        [AudioEvent.play "hello" (some "alice") (some "f.mp3") 0]).eligible "alice" 31
        = true := by
  have hrun : audio_run audioInit [AudioEvent.play "hello" (some "alice") (some "f.mp3") 0]
      = ⟨true, true, 30, [("alice", 0)], true, some "f.mp3"⟩ := by
    simp [audio_run, audio_step, audioInit, play_voice_message, message_is_blank,
      is_in_cooldown, assocFind, stop_current_audio, assocSet]
  rw [hrun]
  refine ⟨rfl, by decide, ?_⟩
  · norm_num [AudioState.eligible, is_in_cooldown, assocFind]

/-- C4 (amended): the cooldown gate is independent of the audio-busy flag
— eligibility reads only the per-person `last_played` map — and rather
than suppressing an announcement while audio is in progress,
`play_voice_message` succeeds identically from a busy or an idle state
(it stops the current audio first): preemption, not suppression. -/
theorem audio_eligibility_ignores_busy :
    (∀ (s : AudioState) (p : String) (now : ℚ) (b : Bool),
        AudioState.eligible { s with is_playing := b } p now = s.eligible p now) ∧
    (∀ (s : AudioState) (msg : String) (pid : Option String) (tts : Option String) (now : ℚ),
        (play_voice_message { s with is_playing := true } msg pid tts now).2 =
        (play_voice_message { s with is_playing := false } msg pid tts now).2) ∧
    (∀ (s : AudioState) (msg p f : String) (now : ℚ),
        s.audio_enabled = true → s.pygame_available = true →
        message_is_blank msg = false → s.eligible p now = true →
        (play_voice_message s msg (some p) (some f) now).2 = true ∧
        (play_voice_message s msg (some p) (some f) now).1.is_playing = true) := by
  refine ⟨?_, ?_, ?_⟩
  · intro s p now b
    rfl
  · intro s msg pid tts now
    cases hen : s.audio_enabled with
    | false => simp [play_voice_message, hen]
    | true =>
      cases hpy : s.pygame_available with
      | false => simp [play_voice_message, hen, hpy]
      | true =>
        cases hbl : message_is_blank msg with
        | true => simp [play_voice_message, hen, hpy, hbl]
        | false =>
          rcases pid with _ | p
          · cases tts <;> simp [play_voice_message, hen, hpy, hbl]
          · cases hcd : is_in_cooldown s.last_played s.message_cooldown p now with
            | true => cases tts <;> simp [play_voice_message, hen, hpy, hbl, hcd]
            | false => cases tts <;> simp [play_voice_message, hen, hpy, hbl, hcd]
  · intro s msg p f now hen hpy hbl helig
    have hcd : is_in_cooldown s.last_played s.message_cooldown p now = false := by
      have := helig
      unfold AudioState.eligible at this
      cases hc : is_in_cooldown s.last_played s.message_cooldown p now
      · rfl
      · rw [hc] at this
        simp at this
    constructor <;> simp [play_voice_message, hen, hpy, hbl, hcd, stop_current_audio]

theorem audio_eligibility_ignores_busy_witness :
    (play_voice_message audioInit "hi" (some "bob") (some "f.mp3") 5).2 = true ∧
    (play_voice_message audioInit "hi" (some "bob") (some "f.mp3") 5).1.is_playing = true :=
  audio_eligibility_ignores_busy.2.2 audioInit "hi" "bob" "f.mp3" 5 rfl rfl
    (by decide) (by decide)

/-! ## Face recognizer (src/src/recognition/recognizer.py) -/

/-- `FaceRecognizer._distance_to_confidence`: per-metric conversion with a
final clamp to at most 1 (the inner `max 0` already bounds below). -/
def distance_to_confidence (distance_metric : String) (distance : ℚ) : ℚ :=
  let confidence :=
    if distance_metric = "cosine" then max 0 (1 - distance)
    else if distance_metric = "euclidean" then max 0 (1 - distance / 2)
    else if distance_metric = "euclidean_l2" then max 0 (1 - distance)
    else max 0 (1 - distance)
  min 1 confidence

/-- The recognizer's configuration and availability flags
(`DEEPFACE_AVAILABLE`, `is_initialized`, threshold, metric, the scanned
person directories and the model name). -/
structure RecognizerState where
  deepface_available : Bool
  is_init : Bool
  confidence_threshold : ℚ
  distance_metric : String
  known_persons : List String
  model_name : String
deriving DecidableEq

/-- `np.mean` over a person's verification distances. -/
def avgDist (ds : List ℚ) : ℚ := ds.sum / (ds.length : ℚ)

/-- One iteration of the matching loop: skip a person whose
`person_distances` list is empty, otherwise keep the smaller average
(strict `<`, so the earliest minimum wins ties).  The accumulator is
`(best_distance, best_person)` with `none` playing `float('inf')`. -/
def bestMatchStep (gallery : String → List ℚ) (acc : Option ℚ × String) (pid : String) :
    Option ℚ × String :=
  let person_distances := gallery pid
  if person_distances = [] then acc
  else
    let avg_distance := avgDist person_distances
    match acc.1 with
    | none => (some avg_distance, pid)
    | some best => if avg_distance < best then (some avg_distance, pid) else acc

/-- The matching loop of `recognize_face` over all enrolled persons.
`gallery pid` is the list of distances that `DeepFace.verify` returned for
that person's images (images whose comparison raised are absent). -/
def bestMatch (known_persons : List String) (gallery : String → List ℚ) :
    Option ℚ × String :=
  known_persons.foldl (bestMatchStep gallery) (none, "unknown")

/-- `_distance_to_confidence(best_distance)`: with `best_distance` still
`float('inf')` the arithmetic `max(0.0, 1.0 - inf)` clamps to `0.0`. -/
def confidenceOfBest (distance_metric : String) : Option ℚ → ℚ
  | none => 0
  | some d => distance_to_confidence distance_metric d

/-- `FaceRecognizer.recognize_face`: guard clauses, the matching loop, the
threshold decision and the forced "unknown" identity.  The face image is
`Option (List ℚ)` (`none` = Python `None`, `[]` = `size == 0`). -/
def recognize_face (st : RecognizerState) (face_image : Option (List ℚ))
    (gallery : String → List ℚ) (now : ℚ) : RecognitionResult :=
  if !st.deepface_available || !st.is_init then
    { person_id := "unknown", confidence := 0, is_known := false, timestamp := now }
  else
    match face_image with
    | none => { person_id := "unknown", confidence := 0, is_known := false, timestamp := now }
    | some img =>
      if img.length = 0 then
        { person_id := "unknown", confidence := 0, is_known := false, timestamp := now }
      else
        let bm := bestMatch st.known_persons gallery
        let confidence := confidenceOfBest st.distance_metric bm.1
        let is_known : Bool := decide (confidence ≥ st.confidence_threshold)
        { person_id := if is_known then bm.2 else "unknown",
          confidence := confidence, is_known := is_known,
          timestamp := now, distance := bm.1, model_name := st.model_name }

lemma min_max_clamp_bounds (x : ℚ) : 0 ≤ min 1 (max 0 x) ∧ min 1 (max 0 x) ≤ 1 :=
  ⟨le_min (by norm_num) (le_max_left 0 x), min_le_left 1 _⟩

/-- C5: the conversion returns the clamp of `1 − d` for the cosine metric,
of `1 − d/2` for euclidean, of `1 − d` for euclidean_l2 and for any
unknown metric the cosine formula; the result always lies in [0, 1]; for
cosine, distance 0 gives 1, distance 1 gives 0, and any distance above 1
gives 0. -/
theorem distance_to_confidence_spec :
    (∀ d : ℚ,
        distance_to_confidence "cosine" d = min 1 (max 0 (1 - d)) ∧
        distance_to_confidence "euclidean" d = min 1 (max 0 (1 - d / 2)) ∧
        distance_to_confidence "euclidean_l2" d = min 1 (max 0 (1 - d))) ∧
    (∀ (m : String) (d : ℚ), m ≠ "cosine" → m ≠ "euclidean" → m ≠ "euclidean_l2" →
        distance_to_confidence m d = distance_to_confidence "cosine" d) ∧
    (∀ (m : String) (d : ℚ),
        0 ≤ distance_to_confidence m d ∧ distance_to_confidence m d ≤ 1) ∧
    distance_to_confidence "cosine" 0 = 1 ∧
    distance_to_confidence "cosine" 1 = 0 ∧
    (∀ d : ℚ, 1 < d → distance_to_confidence "cosine" d = 0) := by
  refine ⟨?_, ?_, ?_, ?_, ?_, ?_⟩
  · intro d
    refine ⟨by simp [distance_to_confidence], by simp [distance_to_confidence],
      by simp [distance_to_confidence]⟩
  · intro m d h1 h2 h3
    simp [distance_to_confidence, h1, h2, h3]
  · intro m d
    unfold distance_to_confidence
    split_ifs <;> exact min_max_clamp_bounds _
  · norm_num [distance_to_confidence]
  · norm_num [distance_to_confidence]
  · intro d hd
    unfold distance_to_confidence
    rw [if_pos rfl, max_eq_left (by linarith : 1 - d ≤ 0)]
    norm_num

theorem distance_to_confidence_spec_witness :
    distance_to_confidence "hamming" 2 = distance_to_confidence "cosine" 2 ∧
    distance_to_confidence "cosine" 2 = 0 :=
  ⟨distance_to_confidence_spec.2.1 "hamming" 2 (by decide) (by decide) (by decide),
   distance_to_confidence_spec.2.2.2.2.2 2 (by norm_num)⟩

lemma bestMatch_foldl_spec (gallery : String → List ℚ) :
    ∀ (persons : List String) (acc : Option ℚ × String) (a : ℚ) (p : String),
      persons.foldl (bestMatchStep gallery) acc = (some a, p) →
      (acc = (some a, p) ∨ (p ∈ persons ∧ gallery p ≠ [] ∧ a = avgDist (gallery p))) ∧
      (∀ q ∈ persons, gallery q ≠ [] → a ≤ avgDist (gallery q)) ∧
      (∀ b, acc.1 = some b → a ≤ b) := by
  intro persons
  induction persons with
  | nil =>
    intro acc a p h
    simp only [List.foldl_nil] at h
    refine ⟨Or.inl h, by simp, ?_⟩
    intro b hb
    rw [h] at hb
    simp only [Option.some.injEq] at hb
    rw [hb]
  | cons pid rest ih =>
    intro acc a p h
    rw [List.foldl_cons] at h
    by_cases hg : gallery pid = []
    · have hstep : bestMatchStep gallery acc pid = acc := by
        unfold bestMatchStep
        simp [hg]
      rw [hstep] at h
      obtain ⟨horig, hmin, hmono⟩ := ih acc a p h
      refine ⟨?_, ?_, hmono⟩
      · rcases horig with h1 | h1
        · exact Or.inl h1
        · exact Or.inr ⟨List.mem_cons_of_mem pid h1.1, h1.2⟩
      · intro q hq hgq
        rcases List.mem_cons.mp hq with h1 | h1
        · exact absurd hg (h1 ▸ hgq)
        · exact hmin q h1 hgq
    · obtain ⟨ob, sb⟩ := acc
      cases ob with
      | none =>
        have hstep : bestMatchStep gallery (none, sb) pid
            = (some (avgDist (gallery pid)), pid) := by
          unfold bestMatchStep
          simp [hg]
        rw [hstep] at h
        obtain ⟨horig, hmin, hmono⟩ := ih _ a p h
        have hout : p ∈ pid :: rest ∧ gallery p ≠ [] ∧ a = avgDist (gallery p) := by
          rcases horig with h1 | h1
          · rw [Prod.mk.injEq] at h1
            obtain ⟨h1a, h1b⟩ := h1
            rw [Option.some.injEq] at h1a
            rw [← h1b, ← h1a]
            exact ⟨List.mem_cons_self pid rest, hg, rfl⟩
          · exact ⟨List.mem_cons_of_mem pid h1.1, h1.2⟩
        refine ⟨Or.inr hout, ?_, ?_⟩
        · intro q hq hgq
          rcases List.mem_cons.mp hq with h1 | h1
          · rw [h1]
            exact hmono (avgDist (gallery pid)) rfl
          · exact hmin q h1 hgq
        · intro b hb
          simp at hb
      | some best =>
        by_cases havg : avgDist (gallery pid) < best
        · have hstep : bestMatchStep gallery (some best, sb) pid
              = (some (avgDist (gallery pid)), pid) := by
            unfold bestMatchStep
            simp [hg, havg]
          rw [hstep] at h
          obtain ⟨horig, hmin, hmono⟩ := ih _ a p h
          have hle : a ≤ avgDist (gallery pid) := hmono (avgDist (gallery pid)) rfl
          have hout : p ∈ pid :: rest ∧ gallery p ≠ [] ∧ a = avgDist (gallery p) := by
            rcases horig with h1 | h1
            · rw [Prod.mk.injEq] at h1
              obtain ⟨h1a, h1b⟩ := h1
              rw [Option.some.injEq] at h1a
              rw [← h1b, ← h1a]
              exact ⟨List.mem_cons_self pid rest, hg, rfl⟩
            · exact ⟨List.mem_cons_of_mem pid h1.1, h1.2⟩
          refine ⟨Or.inr hout, ?_, ?_⟩
          · intro q hq hgq
            rcases List.mem_cons.mp hq with h1 | h1
            · rw [h1]
              exact hle
            · exact hmin q h1 hgq
          · intro b hb
            simp only [Option.some.injEq] at hb
            rw [← hb]
            exact le_of_lt (lt_of_le_of_lt hle havg)
        · have hstep : bestMatchStep gallery (some best, sb) pid = (some best, sb) := by
            unfold bestMatchStep
            simp [hg, havg]
          rw [hstep] at h
          obtain ⟨horig, hmin, hmono⟩ := ih _ a p h
          have hlebest : a ≤ best := hmono best rfl
          refine ⟨?_, ?_, ?_⟩
          · rcases horig with h1 | h1
            · exact Or.inl h1
            · exact Or.inr ⟨List.mem_cons_of_mem pid h1.1, h1.2⟩
          · intro q hq hgq
            rcases List.mem_cons.mp hq with h1 | h1
            · rw [h1]
              exact le_trans hlebest (not_lt.mp havg)
            · exact hmin q h1 hgq
          · intro b hb
            simp only [Option.some.injEq] at hb
            rw [← hb]
            exact hlebest

/-- C6: the matching loop selects the enrolled person with the smallest
average gallery distance (earliest wins ties; persons with no usable
gallery images contribute no candidate); on the main path the result's
confidence is the converted best distance, `is_known` holds exactly when
that confidence reaches the threshold, a below-threshold identity is
forced to "unknown" while confidence and raw distance are still reported;
concretely, a sole candidate at cosine distance 0.9 under threshold 0.6
yields `is_known = false`, `person_id = "unknown"`, confidence 0.1, with
the 0.9 distance reported. -/
theorem recognize_face_argmin_threshold :
    (∀ (persons : List String) (gallery : String → List ℚ) (a : ℚ) (p : String),
        bestMatch persons gallery = (some a, p) →
        p ∈ persons ∧ gallery p ≠ [] ∧ a = avgDist (gallery p) ∧
        ∀ q ∈ persons, gallery q ≠ [] → a ≤ avgDist (gallery q)) ∧
    (∀ (st : RecognizerState) (img : List ℚ) (gallery : String → List ℚ) (now : ℚ),
        st.deepface_available = true → st.is_init = true → img ≠ [] →
        (recognize_face st (some img) gallery now).confidence
            = confidenceOfBest st.distance_metric (bestMatch st.known_persons gallery).1 ∧
        ((recognize_face st (some img) gallery now).is_known = true ↔
            st.confidence_threshold
              ≤ confidenceOfBest st.distance_metric (bestMatch st.known_persons gallery).1) ∧
        ((recognize_face st (some img) gallery now).is_known = false →
            (recognize_face st (some img) gallery now).person_id = "unknown") ∧
        (recognize_face st (some img) gallery now).distance
            = (bestMatch st.known_persons gallery).1) ∧
    (recognize_face ⟨true, true, 3/5, "cosine", ["alice"], "VGG-Face"⟩ (some [1])
        (fun _ => [9/10]) 0 =
      { person_id := "unknown", confidence := 1/10, is_known := false,
        timestamp := 0, distance := some (9/10), model_name := "VGG-Face" }) := by
  refine ⟨?_, ?_, ?_⟩
  · intro persons gallery a p h
    obtain ⟨horig, hmin, _⟩ := bestMatch_foldl_spec gallery persons (none, "unknown") a p h
    rcases horig with h1 | h1
    · rw [Prod.mk.injEq] at h1
      simp at h1
    · exact ⟨h1.1, h1.2.1, h1.2.2, hmin⟩
  · intro st img gallery now hav hinit himg
    have hguard : ¬ ((!st.deepface_available || !st.is_init) = true) := by
      simp [hav, hinit]
    have hlen : ¬ img.length = 0 := by
      intro habs
      exact himg (List.length_eq_zero.mp habs)
    unfold recognize_face
    rw [if_neg hguard]
    dsimp only
    rw [if_neg hlen]
    refine ⟨rfl, by simp [ge_iff_le], ?_, rfl⟩
    intro hkf
    dsimp only at hkf ⊢
    rw [hkf]
    rfl
  · have h1 : bestMatch ["alice"] (fun _ => [9/10]) = (some (9/10), "alice") := by
      norm_num [bestMatch, bestMatchStep, avgDist]
    unfold recognize_face
    norm_num [h1, confidenceOfBest, distance_to_confidence]

theorem recognize_face_argmin_threshold_witness :
    "alice" ∈ ["alice"] ∧ (fun _ : String => [(9:ℚ)/10]) "alice" ≠ [] ∧
    (9 : ℚ)/10 = avgDist ((fun _ : String => [(9:ℚ)/10]) "alice") ∧
    ∀ q ∈ ["alice"], (fun _ : String => [(9:ℚ)/10]) q ≠ [] →
      (9 : ℚ)/10 ≤ avgDist ((fun _ : String => [(9:ℚ)/10]) q) :=
  recognize_face_argmin_threshold.1 ["alice"] (fun _ => [9/10]) (9/10) "alice"
    (by norm_num [bestMatch, bestMatchStep, avgDist])

/-- C7: `recognize_face` is a total function (the embedding of "never
raises"); an unavailable engine or an uninitialized gallery yields the
neutral result, as does a `None` or empty face image, and in particular an
unavailable collaborator is never reported as a known match. -/
theorem recognize_face_guards :
    (∀ (st : RecognizerState) (img : Option (List ℚ)) (gallery : String → List ℚ) (now : ℚ),
        st.deepface_available = false ∨ st.is_init = false →
        recognize_face st img gallery now =
          { person_id := "unknown", confidence := 0, is_known := false, timestamp := now }) ∧
    (∀ (st : RecognizerState) (gallery : String → List ℚ) (now : ℚ),
        recognize_face st none gallery now =
          { person_id := "unknown", confidence := 0, is_known := false, timestamp := now }) ∧
    (∀ (st : RecognizerState) (gallery : String → List ℚ) (now : ℚ),
        recognize_face st (some []) gallery now =
          { person_id := "unknown", confidence := 0, is_known := false, timestamp := now }) ∧
    (∀ (st : RecognizerState) (img : Option (List ℚ)) (gallery : String → List ℚ) (now : ℚ),
        st.deepface_available = false ∨ st.is_init = false →
        (recognize_face st img gallery now).is_known = false) := by
  have hguard : ∀ st : RecognizerState, st.deepface_available = false ∨ st.is_init = false →
      (!st.deepface_available || !st.is_init) = true := by
    intro st h
    rcases h with h | h <;> simp [h]
  refine ⟨?_, ?_, ?_, ?_⟩
  · intro st img gallery now h
    unfold recognize_face
    rw [if_pos (hguard st h)]
  · intro st gallery now
    unfold recognize_face
    by_cases h : (!st.deepface_available || !st.is_init) = true
    · rw [if_pos h]
    · rw [if_neg h]
  · intro st gallery now
    unfold recognize_face
    by_cases h : (!st.deepface_available || !st.is_init) = true
    · rw [if_pos h]
    · rw [if_neg h]
      rfl
  · intro st img gallery now h
    unfold recognize_face
    rw [if_pos (hguard st h)]

theorem recognize_face_guards_witness :
    recognize_face ⟨false, true, 3/5, "cosine", ["alice"], "VGG-Face"⟩ (some [1])
        (fun _ => [9/10]) 7 =
      { person_id := "unknown", confidence := 0, is_known := false, timestamp := 7 } :=
  recognize_face_guards.1 ⟨false, true, 3/5, "cosine", ["alice"], "VGG-Face"⟩ (some [1])
    (fun _ => [9/10]) 7 (Or.inl rfl)

/-! ## Frame quality gate (src/src/video/processor.py) -/

/-- OpenCV border reflection (`BORDER_REFLECT_101`, the default used by
`cv2.Laplacian` with the 3×3 kernel): index −1 maps to 1, index n to n−2. -/
def reflect101 (n : ℕ) (i : ℤ) : ℕ :=
  if i < 0 then (-i).toNat
  else if (n : ℤ) ≤ i then (2 * ((n : ℤ) - 1) - i).toNat
  else i.toNat

/-- Pixel read of a grayscale frame (row-major `List (List ℚ)`) with
reflected borders. -/
def pixAt (g : List (List ℚ)) (i j : ℤ) : ℚ :=
  (g.getD (reflect101 g.length i) []).getD (reflect101 (g.headD []).length j) 0

/-- The 3×3 Laplacian kernel `[[0,1,0],[1,−4,1],[0,1,0]]` applied at one
pixel (what `cv2.Laplacian(gray, CV_64F)` computes per pixel). -/
def laplacianAt (g : List (List ℚ)) (i j : ℤ) : ℚ :=
  pixAt g (i - 1) j + pixAt g (i + 1) j + pixAt g i (j - 1) + pixAt g i (j + 1)
    - 4 * pixAt g i j

/-- The full Laplacian response image, flattened. -/
def laplacianImage (g : List (List ℚ)) : List ℚ :=
  ((List.range g.length).map (fun i =>
    (List.range (g.headD []).length).map (fun j => laplacianAt g (i : ℤ) (j : ℤ)))).flatten

/-- `np.mean`. -/
def listMean (l : List ℚ) : ℚ := l.sum / (l.length : ℚ)

/-- `np.var` (population variance, as `.var()` computes). -/
def listVariance (l : List ℚ) : ℚ :=
  listMean (l.map (fun x => (x - listMean l) * (x - listMean l)))

/-- `FrameProcessor.detect_blur`: Laplacian variance of the grayscale
frame; 0 for a `None` frame. -/
def detect_blur : Option (List (List ℚ)) → ℚ
  | none => 0
  | some g => listVariance (laplacianImage g)

/-- `frame.size` (total number of pixels). -/
def frameSize (g : List (List ℚ)) : ℕ := (g.map List.length).sum

/-- `np.mean(gray)`. -/
def meanBrightness (g : List (List ℚ)) : ℚ := listMean g.flatten

/-- `FrameProcessor.is_frame_suitable`: reject `None` or empty frames,
frames whose Laplacian variance is below `blur_threshold` (default 100.0),
and frames whose mean brightness is `< 30` or `> 225`. -/
def is_frame_suitable (frame : Option (List (List ℚ))) (blur_threshold : ℚ := 100) : Bool :=
  match frame with
  | none => false
  | some g =>
    if frameSize g = 0 then false
    else if detect_blur (some g) < blur_threshold then false
    else if meanBrightness g < 30 ∨ 225 < meanBrightness g then false
    else true

lemma detect_blur_const (c : ℚ) : detect_blur (some [[c, c], [c, c]]) = 0 := by
  have h : laplacianImage [[c, c], [c, c]] = [0, 0, 0, 0] := by
    unfold laplacianImage laplacianAt pixAt reflect101
    norm_num [List.range_succ, List.getD]
    ring_nf
  simp [detect_blur, h, listVariance, listMean]

/-- C8: the quality gate rejects a `None` frame and an empty frame without
raising; for nonempty frames it accepts exactly when the Laplacian
variance is not below the threshold and the mean brightness lies in the
inclusive band [30, 225]; a uniformly-gray frame has zero Laplacian
variance and is rejected under the default threshold 100 regardless of its
gray level; frames with mean brightness exactly 30 or exactly 225 pass. -/
theorem frame_quality_gate :
    (∀ t : ℚ, is_frame_suitable none t = false) ∧
    (∀ t : ℚ, is_frame_suitable (some []) t = false) ∧
    (∀ (g : List (List ℚ)) (t : ℚ), frameSize g ≠ 0 →
        (is_frame_suitable (some g) t = true ↔
          ¬ detect_blur (some g) < t ∧
          30 ≤ meanBrightness g ∧ meanBrightness g ≤ 225)) ∧
    (∀ c : ℚ, detect_blur (some [[c, c], [c, c]]) = 0) ∧
    (∀ c : ℚ, is_frame_suitable (some [[c, c], [c, c]]) 100 = false) ∧
    (meanBrightness [[0, 0], [0, 120]] = 30 ∧
      is_frame_suitable (some [[0, 0], [0, 120]]) 100 = true) ∧
    (meanBrightness [[255, 195], [255, 195]] = 225 ∧
      is_frame_suitable (some [[255, 195], [255, 195]]) 100 = true) := by
  refine ⟨fun t => rfl, fun t => rfl, ?_, detect_blur_const, ?_, ?_, ?_⟩
  · intro g t hsz
    unfold is_frame_suitable
    dsimp only
    rw [if_neg hsz]
    by_cases hb : detect_blur (some g) < t
    · rw [if_pos hb]
      simp [hb]
    · rw [if_neg hb]
      by_cases hbr : meanBrightness g < 30 ∨ 225 < meanBrightness g
      · rw [if_pos hbr]
        refine ⟨fun habs => by simp at habs, fun hrhs => ?_⟩
        exfalso
        rcases hbr with h | h <;> linarith [hrhs.2.1, hrhs.2.2]
      · rw [if_neg hbr]
        push_neg at hbr
        simp [hb, hbr.1, hbr.2]
  · intro c
    unfold is_frame_suitable
    dsimp only
    rw [if_neg (show ¬ frameSize [[c, c], [c, c]] = 0 by norm_num [frameSize]),
      if_pos (show detect_blur (some [[c, c], [c, c]]) < 100 by
        rw [detect_blur_const]; norm_num)]
  · constructor
    · norm_num [meanBrightness, listMean]
    · unfold is_frame_suitable detect_blur laplacianImage laplacianAt pixAt reflect101
      norm_num [List.range_succ, List.getD, listVariance, listMean, frameSize, meanBrightness]
  · constructor
    · norm_num [meanBrightness, listMean]
    · unfold is_frame_suitable detect_blur laplacianImage laplacianAt pixAt reflect101
      norm_num [List.range_succ, List.getD, listVariance, listMean, frameSize, meanBrightness]

theorem frame_quality_gate_witness :
    is_frame_suitable (some [[0, 0], [0, 120]]) 100 = true ↔
      ¬ detect_blur (some [[0, 0], [0, 120]]) < 100 ∧
      30 ≤ meanBrightness [[0, 0], [0, 120]] ∧ meanBrightness [[0, 0], [0, 120]] ≤ 225 :=
  frame_quality_gate.2.2.1 [[0, 0], [0, 120]] 100 (by norm_num [frameSize])

/-! ## Per-frame orchestration (src/app.py, MemoryMirrorApp.process_frame) -/

/-- What one `process_frame` tick produces: the returned pair
`(recognition_result, status)`, the updated cooldown state, how many times
the identity matcher (`recognize_face`) was invoked, and the voice
messages handed to the audio manager. -/
structure FrameOutcome where
  result : Option RecognitionResult
  status : String
  new_state : AppState
  matcher_calls : ℕ
  audio_messages : List String
deriving DecidableEq

/-- `MemoryMirrorApp.process_frame`.  Absent collaborators (the `hasattr`
checks and `None` components of the source) are `Option`-valued
parameters; `get_person_profile` returns the person's voice message.  The
matcher-invocation count instruments the single `recognize_face` call
site. -/
def process_frame {Frame Face : Type}
    (face_detector : Option (Frame → List Face))
    (face_recognizer : Option (Face → RecognitionResult))
    (extract_face_region : Frame → Face → Face)
    (get_person_profile : String → Option String)
    (audio_manager_present : Bool)
    (st : AppState) (frame : Frame) (now : ℚ) : FrameOutcome :=
  match face_detector with
  | none => ⟨none, "error", st, 0, []⟩
  | some detect_faces =>
    match detect_faces frame with
    | [] => ⟨none, "ready", st, 0, []⟩
    | face :: _ =>
      match face_recognizer with
      | none => ⟨none, "unknown", st, 0, []⟩
      | some recognize =>
        let face_region := extract_face_region frame face
        let recognition_result := recognize face_region
        if recognition_result.is_known then
          if should_play_message st recognition_result.person_id now then
            let msgs := match get_person_profile recognition_result.person_id with
              | some voice_message =>
                if audio_manager_present then [voice_message] else []
              | none => []
            ⟨some recognition_result, "recognized",
              { st with last_recognition_time :=
                  assocSet recognition_result.person_id now st.last_recognition_time },
              1, msgs⟩
          else ⟨some recognition_result, "recognized", st, 1, []⟩
        else ⟨none, "unknown", st, 1, []⟩

/-- C9: whenever detection returns zero faces the tick emits status
"ready" with no result, leaves the cooldown state untouched, never invokes
the identity matcher (zero matcher calls — in particular the outcome is
the same for every recognizer), and requests no audio. -/
theorem zero_faces_ready :
    ∀ {Frame Face : Type} (detect_faces : Frame → List Face)
      (face_recognizer : Option (Face → RecognitionResult))
      (extract_face_region : Frame → Face → Face)
      (get_person_profile : String → Option String)
      (audio_manager_present : Bool)
      (st : AppState) (frame : Frame) (now : ℚ),
      detect_faces frame = [] →
      process_frame (some detect_faces) face_recognizer extract_face_region
          get_person_profile audio_manager_present st frame now =
        ⟨none, "ready", st, 0, []⟩ := by
  intro Frame Face detect_faces face_recognizer extract_face_region get_person_profile
    audio_manager_present st frame now hdet
  unfold process_frame
  dsimp only
  rw [hdet]

theorem zero_faces_ready_witness :
    process_frame (some (fun _ : ℕ => ([] : List ℕ))) none (fun _ f => f)
        (fun _ => none) false ⟨[], 30⟩ 0 0 = ⟨none, "ready", ⟨[], 30⟩, 0, []⟩ :=
  zero_faces_ready (fun _ => []) none (fun _ f => f) (fun _ => none) false ⟨[], 30⟩ 0 0 rfl
